import Mathlib

/-!
Verification of the free-text line classifier and aggregator implemented by
the function parse_emails in src/DataAnalysis.py.

The Python source is shallowly embedded.  Each regular expression used by the
source is rendered as an executable scanner over lists of characters that
follows the backtracking order of the Python engine on the inputs the parser
feeds it; the mutable counts dictionary becomes a Counts structure threaded
through the processing functions; and the two runtime crash points of the
source are rendered as Except errors:
  - a None body reaching body.split (AttributeError), and
  - the tuples returned by phone_pattern.findall reaching model.upper()
    (the compiled phone pattern contains two capture groups, one of them
    inside the negative lookahead, so re.findall returns a list of pairs and
    calling the string method upper on a pair raises AttributeError).
Character classes follow the ASCII reading of the Python patterns.
-/

/-- Characters of a string; the embedding works on lists of characters. -/
abbrev Chars := List Char

def strL (s : String) : Chars := s.data

def mkStr (l : Chars) : String := ⟨l⟩

/-- ASCII whitespace recognised by the regex whitespace class and by strip. -/
def isSpaceChar (c : Char) : Bool :=
  decide (c.toNat = 32 ∨ c.toNat = 9 ∨ c.toNat = 10 ∨ c.toNat = 13 ∨
          c.toNat = 11 ∨ c.toNat = 12)

def isDigitChar (c : Char) : Bool := decide (48 ≤ c.toNat ∧ c.toNat ≤ 57)

/-- Word characters for regex word boundaries: digits, letters, underscore. -/
def isWordChar (c : Char) : Bool :=
  decide ((48 ≤ c.toNat ∧ c.toNat ≤ 57) ∨ (97 ≤ c.toNat ∧ c.toNat ≤ 122) ∨
          (65 ≤ c.toNat ∧ c.toNat ≤ 90) ∨ c.toNat = 95)

/-- Separators of the generic pattern description group: comma, semicolon,
newline. -/
def isSepChar (c : Char) : Bool := decide (c = ',' ∨ c = ';' ∨ c = '\n')

/-- The string method lower on an ASCII character. -/
def lowerChar (c : Char) : Char :=
  if 65 ≤ c.toNat ∧ c.toNat ≤ 90 then Char.ofNat (c.toNat + 32) else c

/-- The string method upper on an ASCII character. -/
def upperChar (c : Char) : Char :=
  if 97 ≤ c.toNat ∧ c.toNat ≤ 122 then Char.ofNat (c.toNat - 32) else c

/-- Characters kept by the substitution in normalize_item_name, which deletes
every character that is not a lowercase letter, a digit, whitespace or a
hyphen. -/
def keepChar (c : Char) : Bool :=
  decide ((97 ≤ c.toNat ∧ c.toNat ≤ 122) ∨ (48 ≤ c.toNat ∧ c.toNat ≤ 57) ∨
          c.toNat = 32 ∨ c.toNat = 9 ∨ c.toNat = 10 ∨ c.toNat = 13 ∨
          c.toNat = 11 ∨ c.toNat = 12 ∨ c.toNat = 45)

/-- The string method strip: drop whitespace from both ends. -/
def stripL (l : Chars) : Chars :=
  ((l.dropWhile isSpaceChar).reverse.dropWhile isSpaceChar).reverse

/-- normalize_item_name of the source on character lists: lowercase, delete
the characters not kept, strip. -/
def normChars (l : Chars) : Chars :=
  stripL ((l.map lowerChar).filter keepChar)

/-- normalize_item_name of the source. -/
def normalize_item_name (s : String) : String := mkStr (normChars (strL s))

/-- The string method split on a newline, keeping empty pieces. -/
def splitNL : Chars → List Chars
  | [] => [[]]
  | c :: rest =>
    if c = '\n' then [] :: splitNL rest
    else
      match splitNL rest with
      | p :: ps => (c :: p) :: ps
      | [] => [[c]]

/-- int on a string of decimal digits. -/
def digitsToNat (l : Chars) : Nat := l.foldl (fun a c => a * 10 + (c.toNat - 48)) 0

/-- Whether the first argument is a prefix of the second. -/
def startsWith : Chars → Chars → Bool
  | [], _ => true
  | _ :: _, [] => false
  | a :: as, b :: bs => if a = b then startsWith as bs else false

/-- The Python substring test, needle then haystack. -/
def containsSub (needle : Chars) : Chars → Bool
  | [] => startsWith needle []
  | c :: t => startsWith needle (c :: t) || containsSub needle t

/-- The three model registries of parse_emails. -/
def DESKTOP_MODELS : List String := ["3000", "3010"]

def LAPTOP_MODELS : List String := ["5340", "5330", "5531", "5540", "5666"]

def PHONE_MODELS : List String := ["A32", "A34", "A35", "S23"]

/-- One entry of the unparsable_lines list. -/
structure UEntry where
  line : String
  sender : String
  received_time : String
deriving DecidableEq

/-- The counts dictionary of parse_emails.  The Python defaultdicts become
association lists from labels to counters, preserving insertion order. -/
structure Counts where
  monitors : Nat
  desktops : List (String × Nat)
  laptops : List (String × Nat)
  phones : List (String × Nat)
  bags : List (String × Nat)
  chargers : List (String × Nat)
  docks : Nat
  headsets : List (String × Nat)
  unparsable_lines : List UEntry
deriving DecidableEq

/-- The initial all-zero counts dictionary. -/
def initCounts : Counts := ⟨0, [], [], [], [], [], 0, [], []⟩

/-- A defaultdict increment on an association list. -/
def bumpA (k : String) (n : Nat) : List (String × Nat) → List (String × Nat)
  | [] => [(k, n)]
  | (k', v) :: rest => if k' = k then (k', v + n) :: rest else (k', v) :: bumpA k n rest

/-- One addressable counter of the counts dictionary. -/
inductive Slot where
  | monitors
  | docks
  | desktop (m : String)
  | laptop (m : String)
  | phone (m : String)
  | bag (lab : String)
  | charger (lab : String)
  | headset (lab : String)
deriving DecidableEq

/-- Add n to the counter addressed by a slot. -/
def bumpSlot : Slot → Nat → Counts → Counts
  | .monitors, n, st => { st with monitors := st.monitors + n }
  | .docks, n, st => { st with docks := st.docks + n }
  | .desktop m, n, st => { st with desktops := bumpA m n st.desktops }
  | .laptop m, n, st => { st with laptops := bumpA m n st.laptops }
  | .phone m, n, st => { st with phones := bumpA m n st.phones }
  | .bag lab, n, st => { st with bags := bumpA lab n st.bags }
  | .charger lab, n, st => { st with chargers := bumpA lab n st.chargers }
  | .headset lab, n, st => { st with headsets := bumpA lab n st.headsets }

def increment_monitors (n : Nat) (st : Counts) : Counts := bumpSlot Slot.monitors n st

def increment_desktop (m : String) (n : Nat) (st : Counts) : Counts :=
  bumpSlot (Slot.desktop m) n st

def increment_laptop (m : String) (n : Nat) (st : Counts) : Counts :=
  bumpSlot (Slot.laptop m) n st

/-- The model coercion inside increment_phone: an unrecognized model label
defaults to A35. -/
def phoneCoerce (model : String) : String :=
  if model ∈ PHONE_MODELS then model else "A35"

def increment_phone (model : String) (n : Nat) (st : Counts) : Counts :=
  bumpSlot (Slot.phone (phoneCoerce model)) n st

def increment_bag (lab : String) (n : Nat) (st : Counts) : Counts :=
  bumpSlot (Slot.bag lab) n st

def increment_charger (lab : String) (n : Nat) (st : Counts) : Counts :=
  bumpSlot (Slot.charger lab) n st

def increment_dock (n : Nat) (st : Counts) : Counts := bumpSlot Slot.docks n st

def increment_headset (lab : String) (n : Nat) (st : Counts) : Counts :=
  bumpSlot (Slot.headset lab) n st

def increment_unparsable (line sender time : String) (st : Counts) : Counts :=
  { st with unparsable_lines := st.unparsable_lines ++ [⟨line, sender, time⟩] }

/-- Right word boundary: next character absent or not a word character. -/
def boundaryR : Chars → Bool
  | [] => true
  | c :: _ => !isWordChar c

/-- The anchored pattern X digits whitespace remainder, case-insensitively:
returns the count and the remainder of the line. -/
def matchXLeading (l : Chars) : Option (Nat × Chars) :=
  match l with
  | c :: rest =>
    if c = 'x' ∨ c = 'X' then
      let ds := rest.takeWhile isDigitChar
      if ds.isEmpty then none
      else
        let r1 := rest.drop ds.length
        let ws := r1.takeWhile isSpaceChar
        if ws.isEmpty then none else some (digitsToNat ds, r1.drop ws.length)
    else none
  | [] => none

/-- Greedy match of optional whitespace followed by a nonempty run of
non-separator characters, in the backtracking order of the Python engine:
prefer to extend the whitespace, fall back to starting the description on a
whitespace character when the greedy attempt leaves the description empty. -/
def descGreedy : Chars → Option (Chars × Chars)
  | [] => none
  | c :: rest =>
    if isSpaceChar c then
      match descGreedy rest with
      | some r => some r
      | none =>
        if isSepChar c then none
        else some ((c :: rest).takeWhile (fun d => !isSepChar d),
                   (c :: rest).dropWhile (fun d => !isSepChar d))
    else
      if isSepChar c then none
      else some ((c :: rest).takeWhile (fun d => !isSepChar d),
                 (c :: rest).dropWhile (fun d => !isSepChar d))

/-- One attempted match of the generic count-times-description pattern at the
head of the list: digits, optional whitespace, a multiplier letter, mandatory
whitespace, then the description up to the next separator.  Returns the
parsed count, the description group and the remainder after the match. -/
def genericAt (l : Chars) : Option (Nat × Chars × Chars) :=
  let ds := l.takeWhile isDigitChar
  if ds.isEmpty then none
  else
    let r1 := l.drop ds.length
    match r1.drop (r1.takeWhile isSpaceChar).length with
    | x :: r3 =>
      if x = 'x' ∨ x = 'X' ∨ x = '×' then
        match r3 with
        | c :: r4 =>
          if isSpaceChar c then
            match descGreedy r4 with
            | some (desc, rest) => some (digitsToNat ds, desc, rest)
            | none => none
          else none
        | [] => none
      else none
    | [] => none

/-- re.findall of the generic pattern: scan left to right, emit
non-overlapping matches, resume after each match.  The fuel argument bounds
the recursion by the length of the input. -/
def findallGenericAux : Nat → Chars → List (Nat × Chars)
  | 0, _ => []
  | _, [] => []
  | fuel + 1, c :: rest =>
    match genericAt (c :: rest) with
    | some (n, desc, after) => (n, desc) :: findallGenericAux fuel after
    | none => findallGenericAux fuel rest

def findallGen (l : Chars) : List (Nat × Chars) := findallGenericAux l.length l

/-- The tail of the category-and-model pattern: mandatory whitespace then
exactly four digits at the end of the line. -/
def catModelTail (l : Chars) : Option String :=
  let ws := l.takeWhile isSpaceChar
  if ws.isEmpty then none
  else
    match l.drop ws.length with
    | [a, b, c, d] =>
      if isDigitChar a && isDigitChar b && isDigitChar c && isDigitChar d
      then some (mkStr [a, b, c, d]) else none
    | _ => none

/-- The anchored pattern Laptop-or-PC then four digits, case-insensitively.
The category is returned already lowercased, as the source lowercases it
immediately after matching. -/
def matchCategoryModel (l : Chars) : Option (String × String) :=
  if startsWith (strL "laptop") (l.map lowerChar) then
    (catModelTail (l.drop 6)).map (fun m => ("laptop", m))
  else if startsWith (strL "pc") (l.map lowerChar) then
    (catModelTail (l.drop 2)).map (fun m => ("pc", m))
  else none

/-- One attempted match of the lowercase phone model alternation with a right
word boundary at the head of the list. -/
def phoneTriAt (l : Chars) : Option Chars :=
  match l with
  | a :: b :: c :: rest =>
    if ((a = 'a' ∧ b = '3' ∧ (c = '2' ∨ c = '4' ∨ c = '5')) ∨
        (a = 's' ∧ b = '2' ∧ c = '3')) ∧ boundaryR rest = true
    then some [a, b, c] else none
  | _ => none

/-- re.search of the phone model alternation with word boundaries: scan for
the leftmost match, tracking whether the previous character is a word
character for the left boundary. -/
def searchPhoneAux : Bool → Chars → Option Chars
  | _, [] => none
  | prevW, c :: rest =>
    match (if prevW then none else phoneTriAt (c :: rest)) with
    | some m => some m
    | none => searchPhoneAux (isWordChar c) rest

def searchPhoneModel (l : Chars) : Option Chars := searchPhoneAux false l

/-- The phone model extracted from a normalized description, uppercased, or
the default A35 when the search fails. -/
def phoneModelOrDefault (norm : Chars) : String :=
  match searchPhoneModel norm with
  | some m => mkStr (m.map upperChar)
  | none => "A35"

/-- re.match of four digits: the first four characters when they are all
digits. -/
def first4 (l : Chars) : Option String :=
  match l with
  | a :: b :: c :: d :: _ =>
    if isDigitChar a && isDigitChar b && isDigitChar c && isDigitChar d
    then some (mkStr [a, b, c, d]) else none
  | _ => none

/-- The negative lookahead of the compiled phone pattern: optional whitespace
then the word case, case-insensitively. -/
def caseFollows (l : Chars) : Bool :=
  startsWith (strL "case") ((l.dropWhile isSpaceChar).map lowerChar)

/-- One attempted match of the compiled phone pattern (case-insensitive model
alternation, right word boundary, negative lookahead) at the head. -/
def phonePatAt (l : Chars) : Bool :=
  match l with
  | a :: b :: c :: rest =>
    decide (((lowerChar a = 'a' ∧ lowerChar b = '3' ∧
              (lowerChar c = '2' ∨ lowerChar c = '4' ∨ lowerChar c = '5')) ∨
             (lowerChar a = 's' ∧ lowerChar b = '2' ∧ lowerChar c = '3')) ∧
            boundaryR rest = true ∧ caseFollows rest = false)
  | _ => false

def phonePatAux : Bool → Chars → Bool
  | _, [] => false
  | prevW, c :: rest => (!prevW && phonePatAt (c :: rest)) || phonePatAux (isWordChar c) rest

/-- Whether phone_pattern.findall on the line returns at least one match.
When it does, the source crashes: findall returns pairs because the pattern
has two capture groups, and model.upper() on a pair raises AttributeError. -/
def phonePatNonempty (l : Chars) : Bool := phonePatAux false l

/-- One attempted whole-word match of a fixed word at the head. -/
def wordAt (w : Chars) (l : Chars) : Bool :=
  startsWith w l && boundaryR (l.drop w.length)

def searchWordAux (w : Chars) : Bool → Chars → Bool
  | _, [] => false
  | prevW, c :: rest => (!prevW && wordAt w (c :: rest)) || searchWordAux w (isWordChar c) rest

/-- re.search of a whole-word model token in the line. -/
def searchWord (w : Chars) (l : Chars) : Bool := searchWordAux w false l

/-- re.sub deleting every whole-word occurrence of a fixed word, scanning
left to right and resuming after each match; boundaries are judged on the
original string.  The words removed here are model numbers, so the character
preceding a resume point is always a word character. -/
def removeWordAux (w : Chars) : Nat → Bool → Chars → Chars
  | 0, _, l => l
  | _, _, [] => []
  | fuel + 1, prevW, c :: rest =>
    if !prevW && wordAt w (c :: rest) then
      removeWordAux w fuel true ((c :: rest).drop w.length)
    else c :: removeWordAux w fuel (isWordChar c) rest

def removeWord (w : Chars) (l : Chars) : Chars := removeWordAux w l.length false l

/-- The per-occurrence category cascade of the generic matcher, applied to an
already-normalized description.  Mirrors lines 157 to 250 of the source. -/
def classifyDesc (sender time : String) (lineClean : Chars) (st : Counts) (n : Nat)
    (norm : Chars) : Counts :=
  match first4 norm with
  | some model =>
    if model ∈ DESKTOP_MODELS then increment_desktop model n st
    else if model ∈ LAPTOP_MODELS then increment_laptop model n st
    else increment_unparsable (mkStr lineClean) sender time st
  | none =>
    if containsSub (strL "phone") norm then
      if containsSub (strL "case") norm then
        increment_unparsable (mkStr lineClean) sender time st
      else increment_phone (phoneModelOrDefault norm) n st
    else
      match searchPhoneModel norm with
      | some m =>
        if containsSub (strL "case") norm then
          increment_unparsable (mkStr lineClean) sender time st
        else increment_phone (mkStr (m.map upperChar)) n st
      | none =>
        if containsSub (strL "monitor") norm || containsSub (strL "screen") norm then
          increment_monitors n st
        else if containsSub (strL "bag") norm then
          if containsSub (strL "small") norm then increment_bag "small" n st
          else if containsSub (strL "large") norm then increment_bag "large" n st
          else increment_unparsable (mkStr lineClean) sender time st
        else if containsSub (strL "charger") norm then
          increment_charger (mkStr norm) n st
        else if containsSub (strL "dock") norm then increment_dock n st
        else if containsSub (strL "headset") norm then
          increment_headset (mkStr norm) n st
        else increment_unparsable (mkStr lineClean) sender time st

/-- Processing of one extracted occurrence: normalize its description then
run the category cascade. -/
def classifyOccurrence (sender time : String) (lineClean : Chars) (st : Counts)
    (item : Nat × Chars) : Counts :=
  classifyDesc sender time lineClean st item.1 (normChars item.2)

/-- Processing of a line matched by the leading-count pattern.  Mirrors lines
124 to 152 of the source. -/
def handleXLeading (sender time : String) (lineClean : Chars) (st : Counts) (n : Nat)
    (item : Chars) : Counts :=
  if containsSub (strL "screen") (normChars item) ||
     containsSub (strL "monitor") (normChars item) then
    increment_monitors n st
  else
    match first4 (normChars item) with
    | some model =>
      if model ∈ DESKTOP_MODELS then increment_desktop model n st
      else if model ∈ LAPTOP_MODELS then increment_laptop model n st
      else increment_unparsable (mkStr lineClean) sender time st
    | none => increment_unparsable (mkStr lineClean) sender time st

/-- Processing of a line matched by the category-and-model pattern.  Mirrors
lines 255 to 270 of the source. -/
def handleCategoryModel (sender time : String) (lineClean : Chars) (st : Counts)
    (cat model : String) : Counts :=
  if cat = "laptop" ∧ model ∈ LAPTOP_MODELS then increment_laptop model 1 st
  else if cat = "pc" ∧ model ∈ DESKTOP_MODELS then increment_desktop model 1 st
  else increment_unparsable (mkStr lineClean) sender time st

/-- Python exceptions that escape parse_emails in the source. -/
inductive PyErr where
  | attributeError
deriving DecidableEq

/-- The model extraction loops of the fallback: for each model of the list,
when it occurs as a whole word, count one and delete its occurrences. -/
def extractModels (inc : String → Nat → Counts → Counts) :
    List String → Counts × Bool × Chars → Counts × Bool × Chars
  | [], acc => acc
  | m :: ms, (st, parsed, lc) =>
    if searchWord (strL m) lc then
      extractModels inc ms (inc m 1 st, true, removeWord (strL m) lc)
    else extractModels inc ms (st, parsed, lc)

/-- The final unparsable check of the fallback: a line nothing recognized is
recorded whole. -/
def fallbackSecond (sender time : String) (parsed : Bool) (lc2 : Chars) (st3 : Counts) :
    Counts :=
  if parsed = false ∧ lc2.isEmpty = false then
    increment_unparsable (mkStr lc2) sender time st3
  else st3

/-- The two trailing unparsable checks of the fallback, applied to the
accumulator left by the model extraction loops: when something was parsed and
stripped residual text remains, the residual is recorded; when nothing was
parsed, the whole remaining line is recorded. -/
def fallbackFinish (sender time : String) (r : Counts × Bool × Chars) : Counts :=
  fallbackSecond sender time r.2.1 r.2.2
    (if r.2.1 = true ∧ (stripL r.2.2).isEmpty = false then
       increment_unparsable (mkStr (stripL r.2.2)) sender time r.1
     else r.1)

/-- Processing of a line no earlier pattern matched.  Mirrors lines 275 to
304 of the source: the phone extraction loop crashes on its first iteration
whenever phone_pattern finds a match, because findall returns pairs. -/
def handleFallback (sender time : String) (st : Counts) (lineClean : Chars) :
    Except PyErr Counts :=
  if phonePatNonempty lineClean then Except.error PyErr.attributeError
  else
    Except.ok (fallbackFinish sender time
      (extractModels increment_laptop LAPTOP_MODELS
        (extractModels increment_desktop DESKTOP_MODELS (st, false, lineClean))))

/-- Processing of one raw line of a body: strip, skip when empty, then the
matcher cascade in source order. -/
def processLine (sender time : String) (st : Counts) (line : Chars) :
    Except PyErr Counts :=
  if (stripL line).isEmpty then Except.ok st
  else
    match matchXLeading (stripL line) with
    | some (n, item) => Except.ok (handleXLeading sender time (stripL line) st n item)
    | none =>
      match findallGen (stripL line) with
      | [] =>
        match matchCategoryModel (stripL line) with
        | some (cat, model) =>
            Except.ok (handleCategoryModel sender time (stripL line) st cat model)
        | none => handleFallback sender time st (stripL line)
      | items =>
          Except.ok (items.foldl (classifyOccurrence sender time (stripL line)) st)

def processLines (sender time : String) : Counts → List Chars → Except PyErr Counts
  | st, [] => Except.ok st
  | st, ln :: rest =>
    match processLine sender time st ln with
    | Except.ok st' => processLines sender time st' rest
    | Except.error e => Except.error e

def processBody (sender time : String) (st : Counts) (body : String) :
    Except PyErr Counts :=
  processLines sender time st (splitNL (strL body))

/-- One input record.  The body field distinguishes an absent key (outer
none, which email.get turns into the empty string) from a null value (inner
none, on which body.split raises AttributeError). -/
structure Email where
  body : Option (Option String)
  sender : String
  received_time : String
deriving DecidableEq

/-- An input record whose body is an ordinary string. -/
def mkEmail (b s t : String) : Email := ⟨some (some b), s, t⟩

def processEmail (st : Counts) (e : Email) : Except PyErr Counts :=
  match e.body with
  | none => processBody e.sender e.received_time st ""
  | some none => Except.error PyErr.attributeError
  | some (some b) => processBody e.sender e.received_time st b

def processEmails : Counts → List Email → Except PyErr Counts
  | st, [] => Except.ok st
  | st, e :: rest =>
    match processEmail st e with
    | Except.ok st' => processEmails st' rest
    | Except.error err => Except.error err

/-- parse_emails of the source. -/
def parse_emails (emails : List Email) : Except PyErr Counts :=
  processEmails initCounts emails

/-- Whether the list begins with the word case or cases (a right word
boundary follows). -/
def caseWordAt (x : Chars) : Bool :=
  if startsWith (strL "cases") x then boundaryR (x.drop 5)
  else if startsWith (strL "case") x then boundaryR (x.drop 4)
  else false

/-- Whether the list begins with at least one whitespace character followed
by the word case or cases. -/
def wsThenCaseWord : Chars → Bool
  | [] => false
  | c :: rest => isSpaceChar c && caseWordAt ((c :: rest).dropWhile isSpaceChar)

/-- Whether the list begins with a lowercase phone model token immediately
followed by whitespace and the word case or cases. -/
def modelThenCaseAt (l : Chars) : Bool :=
  match l with
  | a :: b :: c :: rest =>
    decide (((a = 'a' ∧ b = '3' ∧ (c = '2' ∨ c = '4' ∨ c = '5')) ∨
             (a = 's' ∧ b = '2' ∧ c = '3')) ∧ wsThenCaseWord rest = true)
  | _ => false

def modelThenCaseAux : Bool → Chars → Bool
  | _, [] => false
  | prevW, c :: rest =>
    (!prevW && modelThenCaseAt (c :: rest)) || modelThenCaseAux (isWordChar c) rest

/-- Whether the text contains a whole-word phone model token immediately
followed by the word case or cases. -/
def modelThenCase (l : Chars) : Bool := modelThenCaseAux false l

/-- Only the phone slot carries a model label chosen by increment_phone; this
predicate records that such a label is a recognized phone model. -/
def phoneSlotOk (s : Slot) : Prop := ∀ m, s = Slot.phone m → m ∈ PHONE_MODELS

/-- Every key of the phones tally is a recognized phone model. -/
def PhonesOK (st : Counts) : Prop := ∀ p ∈ st.phones, p.1 ∈ PHONE_MODELS

/-! Helper lemmas about stripping and normalization. -/

theorem dropWhile_head_not {p : Char → Bool} :
    ∀ {l : Chars} {c : Char} {t : Chars}, l.dropWhile p = c :: t → p c = false := by
  intro l
  induction l with
  | nil => intro c t h; simp [List.dropWhile] at h
  | cons a as ih =>
    intro c t h
    rw [List.dropWhile_cons] at h
    split at h
    · exact ih h
    · cases h
      exact Bool.eq_false_iff.mpr (by assumption)

theorem dropWhile_idem (p : Char → Bool) (l : Chars) :
    (l.dropWhile p).dropWhile p = l.dropWhile p := by
  cases hl : l.dropWhile p with
  | nil => rfl
  | cons c t =>
    rw [List.dropWhile_cons, dropWhile_head_not hl]
    simp

theorem dropWhile_suffix (p : Char → Bool) (l : Chars) : l.dropWhile p <:+ l := by
  induction l with
  | nil => exact List.suffix_refl _
  | cons a as ih =>
    rw [List.dropWhile_cons]
    split
    · exact ih.trans (List.suffix_cons a as)
    · exact List.suffix_refl _

theorem dropWhile_eq_self_head {p : Char → Bool} {l : Chars} (h : l.dropWhile p = l) :
    ∀ {c t}, l = c :: t → p c = false := by
  intro c t hl
  subst hl
  rw [List.dropWhile_cons] at h
  split at h
  · exfalso
    have hle := (List.dropWhile_sublist (l := t) p).length_le
    have hlen := congrArg List.length h
    simp at hlen
    omega
  · exact Bool.eq_false_iff.mpr (by assumption)

theorem stripL_pfx (l : Chars) : stripL l <+: l.dropWhile isSpaceChar := by
  rw [← List.reverse_suffix]
  unfold stripL
  rw [List.reverse_reverse]
  exact dropWhile_suffix _ _

theorem dropWhile_stripL (l : Chars) : (stripL l).dropWhile isSpaceChar = stripL l := by
  cases hs : stripL l with
  | nil => rfl
  | cons c t =>
    have hpre := stripL_pfx l
    rw [hs] at hpre
    obtain ⟨rest, hrest⟩ := hpre
    have hA := dropWhile_idem isSpaceChar l
    have hc : isSpaceChar c = false := dropWhile_eq_self_head hA hrest.symm
    rw [List.dropWhile_cons, hc]
    simp

theorem stripL_idem (l : Chars) : stripL (stripL l) = stripL l := by
  conv_lhs => rw [stripL]
  rw [dropWhile_stripL]
  have h1 : (stripL l).reverse = (l.dropWhile isSpaceChar).reverse.dropWhile isSpaceChar := by
    rw [stripL, List.reverse_reverse]
  rw [h1, dropWhile_idem]
  rfl

theorem mem_stripL {c : Char} {x : Chars} (h : c ∈ stripL x) : c ∈ x :=
  (List.dropWhile_sublist _).subset ((stripL_pfx x).sublist.subset h)

theorem map_id_of_mem {f : Char → Char} : ∀ {l : Chars}, (∀ c ∈ l, f c = c) → l.map f = l := by
  intro l
  induction l with
  | nil => intro _; rfl
  | cons a as ih =>
    intro h
    rw [List.map_cons, h a (List.mem_cons_self a as),
        ih fun c hc => h c (List.mem_cons_of_mem a hc)]

theorem lowerChar_keep {c : Char} (h : keepChar c = true) : lowerChar c = c := by
  unfold keepChar at h
  rw [decide_eq_true_eq] at h
  unfold lowerChar
  have hn : ¬(65 ≤ c.toNat ∧ c.toNat ≤ 90) := by omega
  rw [if_neg hn]

theorem normChars_mem_keep {c : Char} {l : Chars} (h : c ∈ normChars l) : keepChar c = true := by
  unfold normChars at h
  exact (List.mem_filter.mp (mem_stripL h)).2

theorem normChars_idem (l : Chars) : normChars (normChars l) = normChars l := by
  have hkeep : ∀ c ∈ normChars l, keepChar c = true := fun c hc => normChars_mem_keep hc
  have hmap : (normChars l).map lowerChar = normChars l :=
    map_id_of_mem fun c hc => lowerChar_keep (hkeep c hc)
  conv_lhs => rw [normChars]
  rw [hmap, List.filter_eq_self.mpr hkeep]
  conv_lhs => rw [show normChars l = stripL ((l.map lowerChar).filter keepChar) from rfl]
  rw [stripL_idem]
  rfl

/-! Helper lemmas about slots and the per-occurrence cascade. -/

theorem phoneCoerce_mem (model : String) : phoneCoerce model ∈ PHONE_MODELS := by
  unfold phoneCoerce
  split
  · assumption
  · decide

theorem phoneSlotOk_coerce (model : String) : phoneSlotOk (Slot.phone (phoneCoerce model)) := by
  intro m h
  injection h with h2
  exact h2 ▸ phoneCoerce_mem model

theorem bumpSlot_unparsable (s : Slot) (n : Nat) (st : Counts) :
    (bumpSlot s n st).unparsable_lines = st.unparsable_lines := by
  cases s <;> rfl

theorem bumpSlot_ne_unparsable (s : Slot) (n : Nat) (st : Counts) (line sender time : String) :
    bumpSlot s n st ≠ increment_unparsable line sender time st := by
  intro h
  have h2 := congrArg Counts.unparsable_lines h
  rw [bumpSlot_unparsable] at h2
  unfold increment_unparsable at h2
  have h3 := congrArg List.length h2
  simp at h3

theorem classifyDesc_shape (sender time : String) (lc : Chars) (st : Counts) (n : Nat)
    (norm : Chars) :
    (∃ s, phoneSlotOk s ∧ classifyDesc sender time lc st n norm = bumpSlot s n st) ∨
    classifyDesc sender time lc st n norm = increment_unparsable (mkStr lc) sender time st := by
  unfold classifyDesc
  split
  · split
    · exact Or.inl ⟨Slot.desktop _, fun m h => Slot.noConfusion h, rfl⟩
    · split
      · exact Or.inl ⟨Slot.laptop _, fun m h => Slot.noConfusion h, rfl⟩
      · exact Or.inr rfl
  · split
    · split
      · exact Or.inr rfl
      · exact Or.inl ⟨Slot.phone (phoneCoerce _), phoneSlotOk_coerce _, rfl⟩
    · split
      · split
        · exact Or.inr rfl
        · exact Or.inl ⟨Slot.phone (phoneCoerce _), phoneSlotOk_coerce _, rfl⟩
      · split
        · exact Or.inl ⟨Slot.monitors, fun m h => Slot.noConfusion h, rfl⟩
        · split
          · split
            · exact Or.inl ⟨Slot.bag _, fun m h => Slot.noConfusion h, rfl⟩
            · split
              · exact Or.inl ⟨Slot.bag _, fun m h => Slot.noConfusion h, rfl⟩
              · exact Or.inr rfl
          · split
            · exact Or.inl ⟨Slot.charger _, fun m h => Slot.noConfusion h, rfl⟩
            · split
              · exact Or.inl ⟨Slot.docks, fun m h => Slot.noConfusion h, rfl⟩
              · split
                · exact Or.inl ⟨Slot.headset _, fun m h => Slot.noConfusion h, rfl⟩
                · exact Or.inr rfl

/-! Claim theorems settled so far. -/

/-- Claim C1: the spec expects the line about nineteen Samsung A35 phones and
nineteen cases to add nineteen to the A35 phone tally with one unresolved
entry for the cases clause.  The code instead extracts a single merged
occurrence whose description spans the whole line, detects the model and the
word case together, and records the entire line as the only unresolved entry
with every counter untouched. -/
theorem claimC1_merged_occurrence :
    parse_emails [mkEmail "19 x Samsung A35s and 19 x Samsung A35 cases" "s" "t"] =
      Except.ok ⟨0, [], [], [], [], [], 0, [],
        [⟨"19 x Samsung A35s and 19 x Samsung A35 cases", "s", "t"⟩]⟩ := rfl

/-- Claim C2: the spec expects two reports with a dock and a 5220 polywire
headset each to produce two docks and two headsets.  The code merges each
line into a single occurrence whose description contains the word dock, so
the result has docks equal to two and an empty headsets tally. -/
theorem claimC2_dock_swallows_headset :
    parse_emails [mkEmail "1 x dock and 1 x 5220 polywire headset" "alice" "t1",
                  mkEmail "1 x dock and 1 x 5220 polywire headset" "bob" "t2"] =
      Except.ok ⟨0, [], [], [], [], [], 2, [], []⟩ := rfl

/-- Claim C3: processing one occurrence extracted by the generic matcher
either adds the occurrence's parsed count to exactly one category counter or
appends exactly one unresolved entry, and never both. -/
theorem claimC3_conservation (sender time : String) (lc : Chars) (st : Counts) (n : Nat)
    (desc : Chars) :
    Xor' (∃ s, classifyOccurrence sender time lc st (n, desc) = bumpSlot s n st)
         (classifyOccurrence sender time lc st (n, desc) =
           increment_unparsable (mkStr lc) sender time st) := by
  have hco : classifyOccurrence sender time lc st (n, desc) =
      classifyDesc sender time lc st n (normChars desc) := rfl
  rcases classifyDesc_shape sender time lc st n (normChars desc) with ⟨s, _, h⟩ | h
  · refine Or.inl ⟨⟨s, hco.trans h⟩, ?_⟩
    rw [hco, h]
    exact bumpSlot_ne_unparsable s n st _ _ _
  · refine Or.inr ⟨hco.trans h, ?_⟩
    rintro ⟨s, hs⟩
    rw [hco, h] at hs
    exact bumpSlot_ne_unparsable s n st _ _ _ hs.symm

/-- Claim C6: a generic occurrence whose description contains the word phone
but no recognized phone model token, does not contain the word case, and does
not start with four digits adds its count to the phones tally under the
default model A35 and changes nothing else. -/
theorem claimC6_phone_default (sender time : String) (lc desc : Chars) (st : Counts) (n : Nat)
    (h1 : containsSub (strL "phone") (normChars desc) = true)
    (h2 : searchPhoneModel (normChars desc) = none)
    (h3 : containsSub (strL "case") (normChars desc) = false)
    (h4 : first4 (normChars desc) = none) :
    classifyOccurrence sender time lc st (n, desc) = bumpSlot (Slot.phone "A35") n st := by
  have hco : classifyOccurrence sender time lc st (n, desc) =
      classifyDesc sender time lc st n (normChars desc) := rfl
  rw [hco]
  unfold classifyDesc
  split
  · next model heq => rw [h4] at heq; cases heq
  · rw [if_pos h1, if_neg (by rw [h3]; exact Bool.false_ne_true)]
    unfold increment_phone phoneModelOrDefault
    rw [h2]
    rfl

/-- Witness for claim C6 at the concrete occurrence two phones. -/
theorem claimC6_witness :
    classifyOccurrence "s" "t" (strL "2 x phones") initCounts (2, strL "phones") =
      bumpSlot (Slot.phone "A35") 2 initCounts :=
  claimC6_phone_default "s" "t" (strL "2 x phones") (strL "phones") initCounts 2
    (by decide) (by decide) (by decide) (by decide)

/-- Claim C7: the spec says parse_emails never raises for string-valued
inputs.  The code raises AttributeError on the body Samsung A35: the
fallback's phone pattern has two capture groups, findall therefore returns
pairs, and model.upper() fails on a pair. -/
theorem claimC7_raises_attribute_error :
    parse_emails [mkEmail "Samsung A35" "s" "t"] = Except.error PyErr.attributeError := rfl

/-- Claim C8: the normalizer is idempotent. -/
theorem claimC8_normalize_idempotent (s : String) :
    normalize_item_name (normalize_item_name s) = normalize_item_name s := by
  unfold normalize_item_name
  rw [show strL (mkStr (normChars (strL s))) = normChars (strL s) from rfl, normChars_idem]

/-- Claim C9: a line that is empty after stripping leaves the state unchanged
and appends no unresolved entry. -/
theorem claimC9_blank_line_skipped (sender time : String) (st : Counts) (line : Chars)
    (h : stripL line = []) :
    processLine sender time st line = Except.ok st := by
  simp [processLine, h]

/-- Witness for claim C9 on a line of three spaces. -/
theorem claimC9_witness :
    processLine "s" "t" initCounts (strL "   ") = Except.ok initCounts :=
  claimC9_blank_line_skipped "s" "t" initCounts (strL "   ") (by decide)

/-- Counterexample to claim C5: a report whose body key is absent is
processed as an empty body, so the run records no unresolved entry at all,
while the claim demands exactly one such entry. -/
theorem claimC5_counterexample :
    parse_emails [⟨none, "s", "t"⟩] = Except.ok initCounts ∧
    initCounts.unparsable_lines = [] := ⟨rfl, rfl⟩

/-- Amended claim C5: a report with an absent body behaves as an empty body
(the run continues with the remaining reports and nothing is recorded), while
a report with a null body raises AttributeError and aborts the whole run. -/
theorem claimC5_amended_body_handling (sender time : String) (rest : List Email) :
    parse_emails (⟨none, sender, time⟩ :: rest) = parse_emails rest ∧
    parse_emails (⟨some none, sender, time⟩ :: rest) =
      Except.error PyErr.attributeError := ⟨rfl, rfl⟩

/-- Counterexample to claim C4: the line contains the token A35 immediately
followed by the word case, yet the run records no unresolved entry, because
the generic matcher extracts only the dock occurrence and the rest of the
line is dropped. -/
theorem claimC4_counterexample :
    containsSub (strL "A35 case") (strL "A35 case; 1 x dock") = true ∧
    parse_emails [mkEmail "A35 case; 1 x dock" "s" "t"] =
      Except.ok ⟨0, [], [], [], [], [], 1, [], []⟩ := ⟨rfl, rfl⟩

/-! Helper lemmas for the amended case-exclusion claim. -/

theorem space_not_word {c : Char} (h : isSpaceChar c = true) : isWordChar c = false := by
  unfold isSpaceChar at h
  rw [decide_eq_true_eq] at h
  unfold isWordChar
  rw [decide_eq_false_iff_not]
  omega

theorem startsWith_append {p q x : Chars} (h : startsWith (p ++ q) x = true) :
    startsWith p x = true := by
  induction p generalizing x with
  | nil => rfl
  | cons a p ih =>
    cases x with
    | nil => rw [List.cons_append] at h; exact absurd h (by simp [startsWith])
    | cons b x =>
      rw [List.cons_append] at h
      unfold startsWith at h ⊢
      split at h
      · rw [if_pos (by assumption)]
        exact ih h
      · cases h

theorem containsSub_of_sw {needle l : Chars} (h : startsWith needle l = true) :
    containsSub needle l = true := by
  cases l with
  | nil => exact h
  | cons c t =>
    unfold containsSub
    rw [h]
    rfl

theorem containsSub_cons {needle t : Chars} (c : Char) (h : containsSub needle t = true) :
    containsSub needle (c :: t) = true := by
  unfold containsSub
  rw [h]
  simp

theorem containsSub_dropWhile {needle : Chars} {p : Char → Bool} :
    ∀ {l : Chars}, containsSub needle (l.dropWhile p) = true → containsSub needle l = true := by
  intro l
  induction l with
  | nil => exact fun h => h
  | cons c t ih =>
    intro h
    rw [List.dropWhile_cons] at h
    split at h
    · exact containsSub_cons c (ih h)
    · exact h

theorem caseWordAt_sw {x : Chars} (h : caseWordAt x = true) :
    startsWith (strL "case") x = true := by
  unfold caseWordAt at h
  split at h
  · exact startsWith_append (p := strL "case") (q := ['s']) (by assumption)
  · split at h
    · assumption
    · cases h

theorem wsThenCaseWord_contains {l : Chars} (h : wsThenCaseWord l = true) :
    containsSub (strL "case") l = true := by
  cases l with
  | nil => cases h
  | cons c t =>
    unfold wsThenCaseWord at h
    rw [Bool.and_eq_true] at h
    exact containsSub_dropWhile (containsSub_of_sw (caseWordAt_sw h.2))

theorem modelThenCaseAt_tri {l : Chars} (h : modelThenCaseAt l = true) :
    ∃ m, phoneTriAt l = some m := by
  cases l with
  | nil => exact Bool.noConfusion h
  | cons a r1 =>
    cases r1 with
    | nil => exact Bool.noConfusion h
    | cons b r2 =>
      cases r2 with
      | nil => exact Bool.noConfusion h
      | cons c rest =>
        unfold modelThenCaseAt at h
        rw [decide_eq_true_eq] at h
        obtain ⟨htri, hws⟩ := h
        have hb : boundaryR rest = true := by
          cases rest with
          | nil => rfl
          | cons w r =>
            unfold wsThenCaseWord at hws
            rw [Bool.and_eq_true] at hws
            show (!isWordChar w) = true
            rw [space_not_word hws.1]
            rfl
        exact ⟨[a, b, c], if_pos ⟨htri, hb⟩⟩

theorem modelThenCaseAt_contains {l : Chars} (h : modelThenCaseAt l = true) :
    containsSub (strL "case") l = true := by
  cases l with
  | nil => exact Bool.noConfusion h
  | cons a r1 =>
    cases r1 with
    | nil => exact Bool.noConfusion h
    | cons b r2 =>
      cases r2 with
      | nil => exact Bool.noConfusion h
      | cons c rest =>
        unfold modelThenCaseAt at h
        rw [decide_eq_true_eq] at h
        exact containsSub_cons _ (containsSub_cons _ (containsSub_cons _
          (wsThenCaseWord_contains h.2)))

theorem modelThenCaseAux_search : ∀ {l : Chars} {pw : Bool},
    modelThenCaseAux pw l = true → ∃ m, searchPhoneAux pw l = some m := by
  intro l
  induction l with
  | nil => intro pw h; cases h
  | cons c rest ih =>
    intro pw h
    unfold modelThenCaseAux at h
    rw [Bool.or_eq_true] at h
    rcases h with h | h
    · rw [Bool.and_eq_true, Bool.not_eq_true'] at h
      obtain ⟨m, hm⟩ := modelThenCaseAt_tri h.2
      refine ⟨m, ?_⟩
      unfold searchPhoneAux
      rw [h.1, hm]
      rfl
    · obtain ⟨m, hm⟩ := ih h
      cases hx : (if pw then none else phoneTriAt (c :: rest)) with
      | some m2 =>
        refine ⟨m2, ?_⟩
        unfold searchPhoneAux
        rw [hx]
      | none =>
        refine ⟨m, ?_⟩
        unfold searchPhoneAux
        rw [hx]
        exact hm

theorem modelThenCaseAux_contains : ∀ {l : Chars} {pw : Bool},
    modelThenCaseAux pw l = true → containsSub (strL "case") l = true := by
  intro l
  induction l with
  | nil => intro pw h; cases h
  | cons c rest ih =>
    intro pw h
    unfold modelThenCaseAux at h
    rw [Bool.or_eq_true] at h
    rcases h with h | h
    · rw [Bool.and_eq_true] at h
      exact modelThenCaseAt_contains h.2
    · exact containsSub_cons c (ih h)

/-- Amended claim C4: within the generic matcher, an occurrence whose
normalized description contains a whole-word phone model token immediately
followed by the word case or cases, and does not begin with four digits,
increments no counter and appends exactly one unresolved entry; the original
claim fails at line level because a case fragment lying outside every
extracted occurrence of a generic-matched line is dropped silently. -/
theorem claimC4_amended_case_exclusion (sender time : String) (lc desc : Chars)
    (st : Counts) (n : Nat)
    (h1 : modelThenCase (normChars desc) = true)
    (h2 : first4 (normChars desc) = none) :
    classifyOccurrence sender time lc st (n, desc) =
      increment_unparsable (mkStr lc) sender time st := by
  have hcase : containsSub (strL "case") (normChars desc) = true :=
    modelThenCaseAux_contains h1
  have hsome : ∃ m, searchPhoneModel (normChars desc) = some m :=
    modelThenCaseAux_search h1
  have hco : classifyOccurrence sender time lc st (n, desc) =
      classifyDesc sender time lc st n (normChars desc) := rfl
  rw [hco]
  unfold classifyDesc
  split
  · next model heq => rw [h2] at heq; cases heq
  · by_cases hp : containsSub (strL "phone") (normChars desc) = true
    · rw [if_pos hp, if_pos hcase]
    · rw [if_neg hp]
      obtain ⟨m, hm⟩ := hsome
      simp only [hm, if_pos hcase]

/-- Witness for the amended claim C4 at the occurrence one a35 case. -/
theorem claimC4_amended_witness :
    classifyOccurrence "s" "t" (strL "1 x a35 case") initCounts (1, strL "a35 case") =
      increment_unparsable "1 x a35 case" "s" "t" initCounts :=
  claimC4_amended_case_exclusion "s" "t" (strL "1 x a35 case") (strL "a35 case")
    initCounts 1 (by decide) (by decide)

/-! Helper lemmas for the phone-key invariant. -/

theorem bumpA_keys {Q : String → Prop} {k : String} (n : Nat) :
    ∀ {l : List (String × Nat)}, (∀ p ∈ l, Q p.1) → Q k → ∀ p ∈ bumpA k n l, Q p.1 := by
  intro l
  induction l with
  | nil =>
    intro _ hk p hp
    rw [show bumpA k n [] = [(k, n)] from rfl, List.mem_singleton] at hp
    rw [hp]
    exact hk
  | cons hd tl ih =>
    obtain ⟨k', v⟩ := hd
    intro hl hk p hp
    rw [bumpA] at hp
    split at hp
    · rcases List.mem_cons.mp hp with h | h
      · rw [h]
        exact hl (k', v) (List.mem_cons_self _ _)
      · exact hl p (List.mem_cons_of_mem _ h)
    · rcases List.mem_cons.mp hp with h | h
      · rw [h]
        exact hl (k', v) (List.mem_cons_self _ _)
      · exact ih (fun q hq => hl q (List.mem_cons_of_mem _ hq)) hk p h

theorem bumpSlot_phonesOK {s : Slot} {n : Nat} {st : Counts} (hok : PhonesOK st)
    (hs : phoneSlotOk s) : PhonesOK (bumpSlot s n st) := by
  cases s with
  | phone m => exact fun p hp => bumpA_keys n hok (hs m rfl) p hp
  | monitors => exact hok
  | docks => exact hok
  | desktop m => exact hok
  | laptop m => exact hok
  | bag lab => exact hok
  | charger lab => exact hok
  | headset lab => exact hok

theorem classifyDesc_phonesOK (sender time : String) (lc : Chars) (st : Counts) (n : Nat)
    (norm : Chars) (hok : PhonesOK st) :
    PhonesOK (classifyDesc sender time lc st n norm) := by
  rcases classifyDesc_shape sender time lc st n norm with ⟨s, hps, h⟩ | h
  · rw [h]
    exact bumpSlot_phonesOK hok hps
  · rw [h]
    exact hok

theorem foldl_classify_phonesOK (sender time : String) (lc : Chars) :
    ∀ (items : List (Nat × Chars)) (st : Counts), PhonesOK st →
      PhonesOK (items.foldl (classifyOccurrence sender time lc) st) := by
  intro items
  induction items with
  | nil => exact fun st h => h
  | cons it rest ih =>
    intro st h
    rw [List.foldl_cons]
    exact ih _ (classifyDesc_phonesOK sender time lc st it.1 (normChars it.2) h)

theorem handleX_phones (sender time : String) (lc : Chars) (st : Counts) (n : Nat)
    (item : Chars) : (handleXLeading sender time lc st n item).phones = st.phones := by
  unfold handleXLeading
  repeat' split
  all_goals rfl

theorem handleCategoryModel_phones (sender time : String) (lc : Chars) (st : Counts)
    (cat model : String) :
    (handleCategoryModel sender time lc st cat model).phones = st.phones := by
  unfold handleCategoryModel
  repeat' split
  all_goals rfl

theorem extractModels_phones (inc : String → Nat → Counts → Counts)
    (hinc : ∀ m k s, (inc m k s).phones = s.phones) :
    ∀ (ms : List String) (acc : Counts × Bool × Chars),
      (extractModels inc ms acc).1.phones = acc.1.phones := by
  intro ms
  induction ms with
  | nil => intro acc; rfl
  | cons m ms ih =>
    intro acc
    obtain ⟨s, p, lc⟩ := acc
    unfold extractModels
    split
    · rw [ih]
      exact hinc m 1 s
    · exact ih _

theorem fallbackSecond_phones (sender time : String) (parsed : Bool) (lc2 : Chars)
    (st3 : Counts) : (fallbackSecond sender time parsed lc2 st3).phones = st3.phones := by
  unfold fallbackSecond
  split
  · rfl
  · rfl

theorem fallbackFinish_phones (sender time : String) (r : Counts × Bool × Chars) :
    (fallbackFinish sender time r).phones = r.1.phones := by
  unfold fallbackFinish
  rw [fallbackSecond_phones]
  split
  · rfl
  · rfl

theorem handleFallback_phones (sender time : String) (st : Counts) (lc : Chars)
    (st' : Counts) (h : handleFallback sender time st lc = Except.ok st') :
    st'.phones = st.phones := by
  unfold handleFallback at h
  split at h
  · cases h
  · injection h with h2
    subst h2
    rw [fallbackFinish_phones,
        extractModels_phones increment_laptop (fun m k s => rfl),
        extractModels_phones increment_desktop (fun m k s => rfl)]

theorem processLine_phonesOK (sender time : String) (st : Counts) (line : Chars)
    (st' : Counts) (h : processLine sender time st line = Except.ok st')
    (hok : PhonesOK st) : PhonesOK st' := by
  unfold processLine at h
  split at h
  · injection h with h2
    subst h2
    exact hok
  · split at h
    · injection h with h2
      subst h2
      intro p hp
      rw [handleX_phones] at hp
      exact hok p hp
    · split at h
      · split at h
        · injection h with h2
          subst h2
          intro p hp
          rw [handleCategoryModel_phones] at hp
          exact hok p hp
        · intro p hp
          rw [handleFallback_phones sender time st _ st' h] at hp
          exact hok p hp
      · injection h with h2
        subst h2
        exact foldl_classify_phonesOK sender time _ _ st hok

theorem processLines_phonesOK (sender time : String) :
    ∀ (lns : List Chars) (st st' : Counts),
      processLines sender time st lns = Except.ok st' → PhonesOK st → PhonesOK st' := by
  intro lns
  induction lns with
  | nil =>
    intro st st' h hok
    injection h with h2
    subst h2
    exact hok
  | cons ln rest ih =>
    intro st st' h hok
    unfold processLines at h
    split at h
    · next st2 heq => exact ih _ _ h (processLine_phonesOK sender time st ln st2 heq hok)
    · cases h

theorem processEmail_phonesOK (st : Counts) (e : Email) (st' : Counts)
    (h : processEmail st e = Except.ok st') (hok : PhonesOK st) : PhonesOK st' := by
  unfold processEmail at h
  split at h
  · exact processLines_phonesOK _ _ _ _ _ h hok
  · cases h
  · exact processLines_phonesOK _ _ _ _ _ h hok

theorem processEmails_phonesOK :
    ∀ (emails : List Email) (st st' : Counts),
      processEmails st emails = Except.ok st' → PhonesOK st → PhonesOK st' := by
  intro emails
  induction emails with
  | nil =>
    intro st st' h hok
    injection h with h2
    subst h2
    exact hok
  | cons e rest ih =>
    intro st st' h hok
    unfold processEmails at h
    split at h
    · next st2 heq => exact ih _ _ h (processEmail_phonesOK st e st2 heq hok)
    · cases h

/-- Claim C10: every key of the phones tally in a returned result is one of
the recognized phone models, because increment_phone coerces every
unrecognized label to A35 before counting. -/
theorem claimC10_phone_keys (emails : List Email) (r : Counts)
    (h : parse_emails emails = Except.ok r) :
    ∀ p ∈ r.phones, p.1 ∈ PHONE_MODELS :=
  processEmails_phonesOK emails initCounts r h
    (fun p hp => absurd hp (List.not_mem_nil p))

/-- Witness for claim C10 on a run counting two default phones. -/
theorem claimC10_witness : (("A35", 2) : String × Nat).1 ∈ PHONE_MODELS :=
  claimC10_phone_keys [mkEmail "2 x phones" "s" "t"]
    ⟨0, [], [], [("A35", 2)], [], [], 0, [], []⟩ rfl ("A35", 2)
    (List.mem_singleton.mpr rfl)
